import Mathlib

/-!
Verification of the WorkflowGenius core against its design document.

The definitions below are shallow embeddings of the JavaScript source:

* `src/background/ai-engine.js` — `AIEngine.getProviderOrder`,
  `AIEngine.executeWithRetry`, `AIEngine.getFromCache` / `setCache`,
  `RateLimiter`, `AIMetrics.getSuccessRate`;
* the background service worker (`src/unnamed/part_000`) —
  `executeWorkflow`, `evaluateCondition(s)`, `resolveValue`, `retryStep`,
  `handleGenerateWorkflow`, `createFallbackWorkflow`.

JavaScript numbers appearing in the embedded fragment are integers, so they
are modelled as `Int` (rates and confidences, which are genuine fractions,
use `ℚ`).  Asynchronous I/O boundaries (provider HTTP calls, tab messaging,
regex evaluation) are modelled as oracle parameters; `Date.now()` readings
are explicit arguments.
-/

/-! ### JavaScript value model

`JValue` covers the dynamic values flowing through the condition evaluator
and the execution context: `undefined`, `null`, booleans, (integer) numbers,
strings, plain objects and arrays.  The embedding has no object identity, so
`==` between two objects or arrays is modelled as `false` (the JavaScript
result for distinct references, which is the case for operands resolved
from different paths). -/

inductive JValue where
  | undefined : JValue
  | jnull : JValue
  | jbool : Bool → JValue
  | jnum : Int → JValue
  | jstr : String → JValue
  | jobj : List (String × JValue) → JValue
  | jarr : List JValue → JValue

/-- Object property lookup: first binding wins, absent keys give `undefined`. -/
def getField : List (String × JValue) → String → JValue
  | [], _ => .undefined
  | (k', v) :: rest, k => if k' == k then v else getField rest k

/-- Array element access by property name: canonical numeric keys index the
elements, everything else (including `length`, which the source never reads
through `resolveValue`) is `undefined`. -/
def arrIndex (l : List JValue) (k : String) : JValue :=
  match k.toNat? with
  | some i => l.getD i .undefined
  | none => .undefined

mutual

/-- JavaScript `ToString` on the embedded fragment.  Arrays stringify as the
comma join of their elements (`Array.prototype.toString`), plain objects as
`"[object Object]"`. -/
def jsToString : JValue → String
  | .undefined => "undefined"
  | .jnull => "null"
  | .jbool true => "true"
  | .jbool false => "false"
  | .jnum n => toString n
  | .jstr s => s
  | .jobj _ => "[object Object]"
  | .jarr l => joinElems l

/-- Comma join used by `Array.prototype.toString`; `undefined` and `null`
elements contribute the empty string. -/
def joinElems : List JValue → String
  | [] => ""
  | [v] => elemStr v
  | v :: rest => elemStr v ++ "," ++ joinElems rest

/-- Stringification of one array element inside a join. -/
def elemStr : JValue → String
  | .undefined => ""
  | .jnull => ""
  | v => jsToString v

end

/-- JavaScript `ToPrimitive` with number hint on the embedded fragment:
objects and arrays become their default string form, primitives are
unchanged. -/
def jsToPrim : JValue → JValue
  | .jobj _ => .jstr "[object Object]"
  | .jarr l => .jstr (joinElems l)
  | v => v

/-- JavaScript `ToNumber` on a string, restricted to the integer-literal
fragment the workflows use (`none` models `NaN`; the trimmed empty string is
`0`; floating-point, hex and exponent forms are outside the fragment). -/
def jsStrToNumber (s : String) : Option Int :=
  let t := s.trim
  if t = "" then some 0 else t.toInt?

/-- JavaScript `ToNumber`; `none` models `NaN`. -/
def jsToNumber (v : JValue) : Option Int :=
  match jsToPrim v with
  | .undefined => none
  | .jnull => some 0
  | .jbool b => some (if b then 1 else 0)
  | .jnum n => some n
  | .jstr s => jsStrToNumber s
  | _ => none

/-- Numeric equality where either side being `NaN` compares unequal. -/
def numEq : Option Int → Option Int → Bool
  | some x, some y => x == y
  | _, _ => false

/-- JavaScript loose equality `==` (the Abstract Equality Comparison) on the
embedded fragment.  Object/array pairs compare by reference, modelled as
`false` for the distinct references arising here. -/
def jsEq (a b : JValue) : Bool :=
  match a, b with
  | .undefined, .undefined => true
  | .undefined, .jnull => true
  | .jnull, .undefined => true
  | .jnull, .jnull => true
  | .undefined, _ => false
  | _, .undefined => false
  | .jnull, _ => false
  | _, .jnull => false
  | .jnum x, .jnum y => x == y
  | .jstr x, .jstr y => x == y
  | .jbool x, .jbool y => x == y
  | .jobj _, .jobj _ => false
  | .jobj _, .jarr _ => false
  | .jarr _, .jobj _ => false
  | .jarr _, .jarr _ => false
  | .jstr x, .jobj o => x == jsToString (.jobj o)
  | .jobj o, .jstr y => jsToString (.jobj o) == y
  | .jstr x, .jarr l => x == jsToString (.jarr l)
  | .jarr l, .jstr y => jsToString (.jarr l) == y
  | x, y => numEq (jsToNumber x) (jsToNumber y)

/-- JavaScript Abstract Relational Comparison `a < b`; `none` models the
`undefined` outcome produced when a `NaN` is involved.  Two strings compare
lexicographically, otherwise both sides go through `ToNumber`. -/
def jsLtU (a b : JValue) : Option Bool :=
  match jsToPrim a, jsToPrim b with
  | .jstr x, .jstr y => some (decide (x < y))
  | _, _ =>
    match jsToNumber a, jsToNumber b with
    | some x, some y => some (decide (x < y))
    | _, _ => none

/-- JavaScript `<`: an `undefined` relational outcome yields `false`. -/
def jsLt (a b : JValue) : Bool := (jsLtU a b).getD false

/-- JavaScript `>`: the relational comparison with the operands swapped. -/
def jsGt (a b : JValue) : Bool := (jsLtU b a).getD false

/-- JavaScript `<=`: negation of `b < a`, except that an `undefined`
relational outcome yields `false`. -/
def jsLe (a b : JValue) : Bool :=
  match jsLtU b a with
  | some r => !r
  | none => false

/-- JavaScript `>=`: negation of `a < b`, except that an `undefined`
relational outcome yields `false`. -/
def jsGe (a b : JValue) : Bool :=
  match jsLtU a b with
  | some r => !r
  | none => false

/-- Front-of-list match of two character lists. -/
def leadsWith : List Char → List Char → Bool
  | [], _ => true
  | _ :: _, [] => false
  | a :: as, b :: bs => a == b && leadsWith as bs

/-- Substring occurrence of the first character list inside the second. -/
def occursIn : List Char → List Char → Bool
  | n, [] => n.isEmpty
  | n, h :: hs' => leadsWith n (h :: hs') || occursIn n hs'

/-- The `contains` operator of `evaluateCondition`:
`String(left).includes(String(right))`. -/
def jsContains (l r : JValue) : Bool :=
  occursIn (jsToString r).toList (jsToString l).toList

/-! ### ConditionEvaluator (`evaluateCondition`, `resolveValue`) -/

/-- Oracle for `new RegExp(pattern).test(subject)`: the regex engine is an
external capability; `.error ()` models the `SyntaxError` thrown by an
invalid pattern, which `evaluateCondition` swallows. -/
abbrev RegexOracle := String → String → Except Unit Bool

/-- A condition object `{ left, operator, right }`. -/
structure Condition where
  left : JValue
  operator : String
  right : JValue

/-- One property access `result[key]` inside `resolveValue`'s loop.
Accessing a property of `null` (or `undefined`) throws a `TypeError`,
modelled as `.error ()`; property access on other primitives boxes the value
and yields `undefined` (the string `length`/index properties are outside the
embedded fragment). -/
def jsIndex : JValue → String → Except Unit JValue
  | .jnull, _ => .error ()
  | .undefined, _ => .error ()
  | .jobj fields, k => .ok (getField fields k)
  | .jarr l, k => .ok (arrIndex l k)
  | _, _ => .ok .undefined

/-- The dotted-path walk of `resolveValue`: index by each key in turn,
stopping early (with value `undefined`) as soon as a lookup yields
`undefined` — mirroring `if (result === undefined) break`. -/
def pathWalk : JValue → List String → Except Unit JValue
  | v, [] => .ok v
  | v, k :: ks =>
    match jsIndex v k with
    | .error u => .error u
    | .ok r =>
      match r with
      | .undefined => .ok .undefined
      | r' => pathWalk r' ks

/-- The split of `value.substring(1).split('.')`, written over the character
list: the empty string splits to `[""]`, separators at the ends or adjacent
separators produce empty segments — exactly `String.prototype.split`. -/
def splitDot : List Char → List String
  | [] => [""]
  | c :: rest =>
    if c == '.' then "" :: splitDot rest
    else
      match splitDot rest with
      | [] => [String.mk [c]]
      | s :: ss => String.mk (c :: s.toList) :: ss

/-- `resolveValue(value, context)`: a string operand with the `$` sentinel
prefix (`value.startsWith('$')`, i.e. first character `$`) is resolved by
dotted-path lookup against the context; every other value passes through
unchanged. -/
def resolveValue (v : JValue) (ctx : JValue) : Except Unit JValue :=
  match v with
  | .jstr s =>
    match s.toList with
    | c :: cs => if c == '$' then pathWalk ctx (splitDot cs) else .ok (.jstr s)
    | [] => .ok (.jstr s)
  | _ => .ok v

/-- The pattern handed to `new RegExp(rightValue)`: `RegExp(undefined)`
yields the empty pattern, any other value is coerced with `ToString`. -/
def regexPatternOf : JValue → String
  | .undefined => ""
  | v => jsToString v

/-- The body of `evaluateCondition`'s `try` block: resolve both operands,
then dispatch on the operator string; unrecognized operators fall through to
`true`. -/
def evaluateConditionCore (rt : RegexOracle) (c : Condition) (ctx : JValue) :
    Except Unit Bool :=
  match resolveValue c.left ctx with
  | .error u => .error u
  | .ok lv =>
    match resolveValue c.right ctx with
    | .error u => .error u
    | .ok rv =>
      match c.operator with
      | "==" => .ok (jsEq lv rv)
      | "!=" => .ok (!jsEq lv rv)
      | ">" => .ok (jsGt lv rv)
      | "<" => .ok (jsLt lv rv)
      | ">=" => .ok (jsGe lv rv)
      | "<=" => .ok (jsLe lv rv)
      | "contains" => .ok (jsContains lv rv)
      | "matches" => rt (regexPatternOf rv) (jsToString lv)
      | _ => .ok true

/-- `evaluateCondition(condition, context)`: fails closed — any error thrown
inside the `try` block is caught and yields `false`. -/
def evaluateCondition (rt : RegexOracle) (c : Condition) (ctx : JValue) : Bool :=
  match evaluateConditionCore rt c ctx with
  | .ok b => b
  | .error _ => false

/-- `evaluateConditions(conditions, context)`:
`conditions.every(c => evaluateCondition(c, context))`. -/
def evaluateConditions (rt : RegexOracle) (cs : List Condition) (ctx : JValue) : Bool :=
  cs.all (fun c => evaluateCondition rt c ctx)

/-! ### Keyed collections

Association lists with JavaScript `Map` / plain-object update semantics:
setting an existing key updates it in place, a new key is appended (insertion
order preserved); delete removes the (unique) binding. -/

/-- `Map.prototype.set` / object property assignment on an association list. -/
def mapSet {β : Type} : List (String × β) → String → β → List (String × β)
  | [], k, v => [(k, v)]
  | (k', v') :: rest, k, v =>
    if k' == k then (k, v) :: rest else (k', v') :: mapSet rest k v

/-- `Map.prototype.get` on an association list. -/
def lookupKey {β : Type} : List (String × β) → String → Option β
  | [], _ => none
  | (k', v) :: rest, k => if k' == k then some v else lookupKey rest k

/-- `Map.prototype.delete` on an association list (keys are unique). -/
def mapDelete {β : Type} (k : String) : List (String × β) → List (String × β)
  | [] => []
  | (k', v) :: rest => if k' == k then rest else (k', v) :: mapDelete k rest

/-! ### WorkflowExecutor (`executeWorkflow`, `retryStep`)

The dispatch of `executeStep` on the step type performs I/O (tab messaging,
`fetch`, nested loops), so it is modelled as an oracle
`Nat → WStep → context → Except String JValue` indexed by a global invocation
counter — each call of the operation may succeed or throw independently. -/

/-- The step fields `executeWorkflow` itself reads; the type-specific action
payload is consumed only by the `executeStep` oracle. -/
structure WStep where
  id : String
  conditions : Option (List Condition)
  errorHandling : Option String
  storeAs : Option String

/-- Oracle standing for `executeStep(step, execution, tabId)`. -/
abbrev StepOracle := Nat → WStep → List (String × JValue) → Except String JValue

/-- One entry of the local `results` array built by `executeWorkflow`:
`{stepId, result}`, `{stepId, skipped: true}`, `{stepId, error}` or
`{stepId, result, retried: true}`. -/
inductive StepEntry where
  | success : String → JValue → StepEntry
  | skipped : String → StepEntry
  | errored : String → String → StepEntry
  | retried : String → JValue → StepEntry

/-- Whether a `results` entry is the `{stepId, skipped: true}` form. -/
def StepEntry.isSkipped : StepEntry → Bool
  | .skipped _ => true
  | _ => false

/-- The `{step, error}` object pushed onto `execution.errors`. -/
def errObj (stepId msg : String) : JValue :=
  .jobj [("step", .jstr stepId), ("error", .jstr msg)]

/-- Push onto an array-valued field of the execution object
(`execution.results.push(...)`, `execution.errors.push(...)`); the executor
initialises both fields to arrays. -/
def pushField (ctx : List (String × JValue)) (k : String) (v : JValue) :
    List (String × JValue) :=
  mapSet ctx k
    (match getField ctx k with
     | .jarr l => .jarr (l ++ [v])
     | _ => .jarr [v])

/-- Result of one `retryStep` call: the returned/thrown value, the backoff
waits performed (one before every attempt: `delay(2^i * 1000)` precedes each
`executeStep`), and how many attempts were made. -/
structure RetryOut where
  res : Except String JValue
  waits : List Nat
  attempts : Nat

/-- The loop body of `retryStep`: at attempt index `i` with `fuel` attempts
remaining, wait `2^i * 1000`, invoke the operation, return on success,
remember the error otherwise; when the budget is exhausted the last error is
rethrown (`lastErr` starts out undefined and only surfaces for a zero
budget). -/
def retryStepGo (rs : StepOracle) (step : WStep) (ctx : List (String × JValue)) :
    Nat → Nat → Nat → String → RetryOut
  | _, 0, _, lastErr => ⟨.error lastErr, [], 0⟩
  | i, fuel + 1, k, _ =>
    match rs k step ctx with
    | .ok v => ⟨.ok v, [2 ^ i * 1000], 1⟩
    | .error e =>
      let r := retryStepGo rs step ctx (i + 1) fuel (k + 1) e
      ⟨r.res, 2 ^ i * 1000 :: r.waits, r.attempts + 1⟩

/-- `retryStep(step, execution, tabId, maxRetries = 3)`: re-invoke the step
with exponential backoff, throwing the last error when every attempt fails. -/
def retryStep (rs : StepOracle) (step : WStep) (ctx : List (String × JValue))
    (maxRetries k : Nat) : RetryOut :=
  retryStepGo rs step ctx 0 maxRetries k "undefined"

/-- Trace of one `executeWorkflow` run: the local `results` array, the
inter-step waits (`delay(settings.stepDelay)`), the retry backoff waits, the
`executeStep` invocations in order (one id per call, retries included), the
exception that aborted the run (if any), the final execution-object fields,
and the next oracle index.  When `aborted = some e` the JavaScript function
threw `e` — entries collected before the throw are kept here as a trace but
are not returned to the caller. -/
structure ExecOut where
  entries : List StepEntry
  stepWaits : List Nat
  retryWaits : List Nat
  invoked : List String
  aborted : Option String
  finalCtx : List (String × JValue)
  counter : Nat

/-- The condition gate of `executeWorkflow`:
`step.conditions && !evaluateConditions(step.conditions, execution)` skips
the step, so the step runs when conditions are absent or all evaluate true
(an empty declared list is truthy and `every` on it is true). -/
def stepGate (rt : RegexOracle) (step : WStep) (ctx : List (String × JValue)) : Bool :=
  match step.conditions with
  | some cs => evaluateConditions rt cs (.jobj ctx)
  | none => true

/-- The inter-step wait: `if (workflow.settings?.stepDelay) await delay(...)`;
a zero/absent `stepDelay` is falsy and performs no wait. -/
def waitAfter (stepDelay : Nat) : List Nat :=
  if stepDelay ≠ 0 then [stepDelay] else []

/-- The step loop of `executeWorkflow`.  Per step: a false condition gate
records a skipped entry and `continue`s (bypassing the inter-step delay);
otherwise `executeStep` runs, a success is recorded (also pushed onto
`execution.results` and bound via `storeAs` — an empty `storeAs` string is
falsy); an error is handled per the step's `errorHandling`: `"fail"` rethrows
and aborts, `"retry"` runs `retryStep` with budget 3 and either records a
retried entry or rethrows the final error (also aborting), and any other
mode records the error on the entry list and on `execution.errors` and
continues.  The inter-step wait runs after every non-skipped, non-aborting
step. -/
def execSteps (rs : StepOracle) (rt : RegexOracle) (stepDelay : Nat) :
    List WStep → List (String × JValue) → Nat → ExecOut
  | [], ctx, k => ⟨[], [], [], [], none, ctx, k⟩
  | step :: rest, ctx, k =>
    match stepGate rt step ctx with
    | false =>
      let o := execSteps rs rt stepDelay rest ctx k
      { o with entries := .skipped step.id :: o.entries }
    | true =>
      match rs k step ctx with
      | .ok v =>
        let ctx1 := pushField ctx "results" v
        let ctx2 :=
          match step.storeAs with
          | some f => if f ≠ "" then mapSet ctx1 f v else ctx1
          | none => ctx1
        let o := execSteps rs rt stepDelay rest ctx2 (k + 1)
        { o with
            entries := .success step.id v :: o.entries,
            stepWaits := waitAfter stepDelay ++ o.stepWaits,
            invoked := step.id :: o.invoked }
      | .error e =>
        match step.errorHandling with
        | some "fail" => ⟨[], [], [], [step.id], some e, ctx, k + 1⟩
        | some "retry" =>
          let r := retryStep rs step ctx 3 (k + 1)
          match r.res with
          | .ok v =>
            let o := execSteps rs rt stepDelay rest ctx (k + 1 + r.attempts)
            { o with
                entries := .retried step.id v :: o.entries,
                stepWaits := waitAfter stepDelay ++ o.stepWaits,
                retryWaits := r.waits ++ o.retryWaits,
                invoked := step.id :: List.replicate r.attempts step.id ++ o.invoked }
          | .error e2 =>
            ⟨[], [], r.waits, step.id :: List.replicate r.attempts step.id,
              some e2, ctx, k + 1 + r.attempts⟩
        | _ =>
          let ctxE := pushField ctx "errors" (errObj step.id e)
          let o := execSteps rs rt stepDelay rest ctxE (k + 1)
          { o with
              entries := .errored step.id e :: o.entries,
              stepWaits := waitAfter stepDelay ++ o.stepWaits,
              invoked := step.id :: o.invoked }

/-! ### RateLimiter (`canMakeRequest`, `recordRequest`) -/

/-- `RateLimiter.cleanup()`: drop every recorded timestamp outside the
sliding window (`now - time < windowMs` is kept). -/
def rlCleanup (windowMs now : Int) (requests : List Int) : List Int :=
  requests.filter (fun t => now - t < windowMs)

/-- `RateLimiter.canMakeRequest()`: clean up, then compare the count against
the capacity; the cleaned list is the limiter's new state (cleanup
reassigns `this.requests`). -/
def canMakeRequest (maxRequests : Nat) (windowMs now : Int) (requests : List Int) :
    Bool × List Int :=
  let r := rlCleanup windowMs now requests
  (decide (r.length < maxRequests), r)

/-- `RateLimiter.recordRequest()`: clean up, then push the current time. -/
def recordRequest (windowMs now : Int) (requests : List Int) : List Int :=
  rlCleanup windowMs now requests ++ [now]

/-- The admission discipline of `executeWithFallback` (ai-engine.js, lines
154–175): `recordRequest` is called only after `canMakeRequest` returned
true — the spec's `tryAcquire`. -/
def tryAcquire (maxRequests : Nat) (windowMs now : Int) (requests : List Int) :
    Bool × List Int :=
  let c := canMakeRequest maxRequests windowMs now requests
  if c.1 then (true, recordRequest windowMs now c.2) else (false, c.2)

/-- A sequence of `tryAcquire` calls at the given times, starting from the
given recorded-timestamp state. -/
def rlRun (maxRequests : Nat) (windowMs : Int) (s : List Int) : List Int → List Int
  | [] => s
  | t :: ts => rlRun maxRequests windowMs (tryAcquire maxRequests windowMs t s).2 ts

/-! ### ResponseCache (`getFromCache`, `setCache`) -/

/-- One cached value with its insertion timestamp. -/
structure CacheEntry (α : Type) where
  data : α
  timestamp : Int

/-- `AIEngine.getFromCache(key)`: a fresh entry (age strictly below the
configured expiry, read at access time) is returned; otherwise — expired
entry or plain miss — the key is deleted and the access is a miss. -/
def getFromCache {α : Type} (cacheExpiry now : Int)
    (cache : List (String × CacheEntry α)) (key : String) :
    Option α × List (String × CacheEntry α) :=
  match lookupKey cache key with
  | some e =>
    if now - e.timestamp < cacheExpiry then (some e.data, cache)
    else (none, mapDelete key cache)
  | none => (none, mapDelete key cache)

/-- The size bound of `setCache`: when more than 100 entries are stored, the
first-inserted key (`this.cache.keys().next().value`) is deleted. -/
def evictOverCap {α : Type} (c : List (String × CacheEntry α)) :
    List (String × CacheEntry α) :=
  if 100 < c.length then
    match c with
    | [] => c
    | (k0, _) :: _ => mapDelete k0 c
  else c

/-- `AIEngine.setCache(key, data)`: store with the current timestamp, then
evict the first-inserted key if the size bound of 100 is exceeded. -/
def setCache {α : Type} (now : Int) (cache : List (String × CacheEntry α))
    (key : String) (d : α) : List (String × CacheEntry α) :=
  evictOverCap (mapSet cache key ⟨d, now⟩)

/-! ### RetryPolicy (`AIEngine.executeWithRetry`) -/

/-- The hardcoded backoff base of `delay(Math.pow(2, i) * 1000)`. -/
def retryBase : Nat := 1000

/-- The attempt loop of `executeWithRetry`.  The operation is an oracle
indexed by the attempt number whose outcome already includes the per-attempt
`Promise.race` timeout (a timeout is just one more error).  Returns the
result (`.error` carries the last error; `none` models the undefined
`lastError` thrown when no attempt ran), the number of attempts made, and
the backoff waits performed: `2^i * 1000` after failing attempt `i`
while `i < maxRetries - 1`, nothing after the final attempt. -/
def executeWithRetryGo {E A : Type} (op : Nat → Except E A) :
    Nat → Nat → Option E → (Except (Option E) A) × Nat × List Nat
  | _, 0, lastErr => (.error lastErr, 0, [])
  | i, 1, _ =>
    match op i with
    | .ok a => (.ok a, 1, [])
    | .error e => (.error (some e), 1, [])
  | i, fuel + 2, _ =>
    match op i with
    | .ok a => (.ok a, 1, [])
    | .error e =>
      let r := executeWithRetryGo op (i + 1) (fuel + 1) (some e)
      (r.1, r.2.1 + 1, 2 ^ i * retryBase :: r.2.2)

/-- `AIEngine.executeWithRetry(operation, maxRetries)`. -/
def executeWithRetry {E A : Type} (op : Nat → Except E A) (maxRetries : Nat) :
    (Except (Option E) A) × Nat × List Nat :=
  executeWithRetryGo op 0 maxRetries none

/-! ### MetricsRecorder and provider ordering -/

/-- `AIMetrics.getSuccessRate(provider)`: the requests map is read at the
`provider:success` / `provider:failure` keys (absent keys count 0); a
provider with no recorded history defaults to `1/2`. -/
def getSuccessRate (m : String → Nat) (provider : String) : ℚ :=
  let s := m (provider ++ ":success")
  let f := m (provider ++ ":failure")
  if s + f > 0 then (s : ℚ) / ((s : ℚ) + (f : ℚ)) else 1 / 2

/-- Stable insertion step: place `x` before the first element whose rate it
strictly exceeds, after every element with a rate at least its own. -/
def insertByRate {α : Type} (rate : α → ℚ) (x : α) : List α → List α
  | [] => [x]
  | y :: ys => if rate y ≤ rate x then x :: y :: ys else y :: insertByRate rate x ys

/-- Denotation of `order.sort((a, b) => rateB - rateA)`: JavaScript's
`Array.prototype.sort` is stable (ES2019), and a stable sort for the total
preorder induced by the comparator is the unique function computed by this
stable insertion sort. -/
def sortByRate {α : Type} (rate : α → ℚ) : List α → List α
  | [] => []
  | x :: xs => insertByRate rate x (sortByRate rate xs)

/-- `AIEngine.getProviderOrder(preferred)`: a preferred provider that is one
of the configured provider names is moved to the front of the declaration
order; otherwise the names are sorted by descending rolling success rate. -/
def getProviderOrder (names : List String) (m : String → Nat)
    (preferred : Option String) : List String :=
  match preferred with
  | some p =>
    if names.contains p then p :: names.filter (fun q => q != p)
    else sortByRate (getSuccessRate m) names
  | none => sortByRate (getSuccessRate m) names

/-! ### Generation handler (`handleGenerateWorkflow`, `createFallbackWorkflow`) -/

/-- A step of a generated workflow as built by `createFallbackWorkflow`. -/
structure FStep where
  id : String
  type : String
  action : List (String × JValue)

/-- The `metadata` object of a generated workflow. -/
structure WfMeta where
  isFallback : Bool
  originalDescription : String

/-- A generated workflow as the handler returns it. -/
structure GenWorkflow where
  id : String
  name : String
  description : String
  steps : List FStep
  metadata : Option WfMeta

/-- `createFallbackWorkflow(description)`. -/
def createFallbackWorkflow (now : Int) (description : String) : GenWorkflow :=
  { id := "fallback_" ++ toString now
    name := "Fallback Workflow"
    description := "Generated fallback for: " ++ description
    steps := [⟨"step_1", "alert",
      [("message",
        .jstr "Workflow generation failed. Please try again with more details.")]⟩]
    metadata := some ⟨true, description⟩ }

/-- What `handleGenerateWorkflow` reads from `patternMatcher.match`:
the top confidence and `matches[0]?.pattern.workflow`. -/
structure MatchResult where
  confidence : ℚ
  topWorkflow : Option GenWorkflow

/-- The generation leg of `handleGenerateWorkflow`'s `try` block:
`generateFromDescription` then `learnPattern`, either of which may throw
(`storeWorkflow` catches internally and never does). -/
def generateBranch (now : Int) (description : String)
    (generate : Except String GenWorkflow) (learnPattern : Except String Unit) :
    GenWorkflow :=
  match generate with
  | .error _ => createFallbackWorkflow now description
  | .ok w =>
    match learnPattern with
    | .error _ => createFallbackWorkflow now description
    | .ok _ => w

/-- `handleGenerateWorkflow(payload, sender)`: try the pattern matcher
(confidence above 0.85 with a stored workflow short-circuits), otherwise
generate; any exception on the path is caught and answered with the
fallback workflow. -/
def handleGenerateWorkflow (now : Int) (description : String)
    (patternMatch : Except String MatchResult)
    (generate : Except String GenWorkflow) (learnPattern : Except String Unit) :
    GenWorkflow :=
  match patternMatch with
  | .error _ => createFallbackWorkflow now description
  | .ok m =>
    match m.topWorkflow with
    | some w =>
      if (85 : ℚ) / 100 < m.confidence then w
      else generateBranch now description generate learnPattern
    | none => generateBranch now description generate learnPattern

/-! ### Lemmas about the stable sort -/

theorem insertByRate_perm {α : Type} (rate : α → ℚ) (x : α) (l : List α) :
    List.Perm (insertByRate rate x l) (x :: l) := by
  induction l with
  | nil => simp [insertByRate]
  | cons y ys ih =>
    simp only [insertByRate]
    split
    · exact List.Perm.refl _
    · exact (List.Perm.cons y ih).trans (List.Perm.swap x y ys)

theorem mem_insertByRate {α : Type} {rate : α → ℚ} {x z : α} {l : List α} :
    z ∈ insertByRate rate x l ↔ z = x ∨ z ∈ l := by
  rw [(insertByRate_perm rate x l).mem_iff]
  simp

theorem insertByRate_pairwise {α : Type} (rate : α → ℚ) (x : α) (l : List α)
    (h : l.Pairwise (fun a b => rate b ≤ rate a)) :
    (insertByRate rate x l).Pairwise (fun a b => rate b ≤ rate a) := by
  induction l with
  | nil => simp [insertByRate]
  | cons y ys ih =>
    rw [List.pairwise_cons] at h
    obtain ⟨hy, hys⟩ := h
    simp only [insertByRate]
    split
    · rename_i hle
      rw [List.pairwise_cons]
      refine ⟨fun z hz => ?_, List.pairwise_cons.mpr ⟨hy, hys⟩⟩
      rcases List.mem_cons.mp hz with rfl | hz
      · exact hle
      · exact (hy z hz).trans hle
    · rename_i hgt
      push_neg at hgt
      rw [List.pairwise_cons]
      refine ⟨fun z hz => ?_, ih hys⟩
      rcases mem_insertByRate.mp hz with rfl | hz
      · exact le_of_lt hgt
      · exact hy z hz

theorem sortByRate_perm {α : Type} (rate : α → ℚ) (l : List α) :
    List.Perm (sortByRate rate l) l := by
  induction l with
  | nil => simp [sortByRate]
  | cons x xs ih =>
    exact (insertByRate_perm rate x (sortByRate rate xs)).trans (List.Perm.cons x ih)

theorem sortByRate_pairwise {α : Type} (rate : α → ℚ) (l : List α) :
    (sortByRate rate l).Pairwise (fun a b => rate b ≤ rate a) := by
  induction l with
  | nil => simp [sortByRate]
  | cons x xs ih => exact insertByRate_pairwise rate x _ ih

theorem insertByRate_filter_of_eq {α : Type} (rate : α → ℚ) (q : ℚ) (x : α)
    (l : List α) (hx : rate x = q) :
    (insertByRate rate x l).filter (fun z => decide (rate z = q))
      = x :: l.filter (fun z => decide (rate z = q)) := by
  induction l with
  | nil => simp [insertByRate, hx]
  | cons y ys ih =>
    simp only [insertByRate]
    split
    · simp [List.filter_cons, hx]
    · rename_i hgt
      push_neg at hgt
      have hy : rate y ≠ q := by
        intro hyq
        exact absurd (le_of_eq (hyq.trans hx.symm)) (not_le_of_lt hgt)
      simp [List.filter_cons, hy, ih]

theorem insertByRate_filter_of_ne {α : Type} (rate : α → ℚ) (q : ℚ) (x : α)
    (l : List α) (hx : rate x ≠ q) :
    (insertByRate rate x l).filter (fun z => decide (rate z = q))
      = l.filter (fun z => decide (rate z = q)) := by
  induction l with
  | nil => simp [insertByRate, hx]
  | cons y ys ih =>
    simp only [insertByRate]
    split
    · simp [List.filter_cons, hx]
    · simp [List.filter_cons, ih]

theorem sortByRate_filter {α : Type} (rate : α → ℚ) (q : ℚ) (l : List α) :
    (sortByRate rate l).filter (fun z => decide (rate z = q))
      = l.filter (fun z => decide (rate z = q)) := by
  induction l with
  | nil => simp [sortByRate]
  | cons x xs ih =>
    by_cases hx : rate x = q
    · rw [sortByRate, insertByRate_filter_of_eq rate q x _ hx, ih]
      simp [List.filter_cons, hx]
    · rw [sortByRate, insertByRate_filter_of_ne rate q x _ hx, ih]
      simp [List.filter_cons, hx]

/-- C1: if a preferred provider is specified and is one of the configured
provider names, `getProviderOrder` (the candidate order `generate`'s
fallback loop iterates) puts it first, followed by the remaining names in
declaration order; otherwise the candidates are ordered by descending
rolling success rate (`getSuccessRate` defaults to `1/2` for a provider
with no history), and providers with equal rates keep their declaration
order (the sort is a permutation whose equal-rate subsequences are
preserved). -/
theorem provider_order_spec (names : List String) (m : String → Nat) (p : String) :
    (names.contains p = true →
      getProviderOrder names m (some p) = p :: names.filter (fun q => q != p)
      ∧ (getProviderOrder names m (some p)).head? = some p)
    ∧ (getProviderOrder names m none).Pairwise
        (fun a b => getSuccessRate m b ≤ getSuccessRate m a)
    ∧ List.Perm (getProviderOrder names m none) names
    ∧ ∀ q : ℚ,
        (getProviderOrder names m none).filter (fun x => decide (getSuccessRate m x = q))
          = names.filter (fun x => decide (getSuccessRate m x = q)) := by
  refine ⟨fun h => ?_, ?_, ?_, fun q => ?_⟩
  · simp only [getProviderOrder]
    rw [if_pos h]
    exact ⟨rfl, rfl⟩
  · exact sortByRate_pairwise _ names
  · exact sortByRate_perm _ names
  · exact sortByRate_filter _ q names

/-- Witness for C1: with three configured providers and no recorded history,
preferring the last-declared provider moves it to the front. -/
theorem provider_order_spec_witness :
    getProviderOrder ["groq", "huggingface", "openrouter"] (fun _ => 0) (some "openrouter")
      = "openrouter" :: ["groq", "huggingface", "openrouter"].filter (fun q => q != "openrouter")
    ∧ (getProviderOrder ["groq", "huggingface", "openrouter"] (fun _ => 0)
        (some "openrouter")).head? = some "openrouter" :=
  (provider_order_spec ["groq", "huggingface", "openrouter"] (fun _ => 0) "openrouter").1
    (by decide)

/-- C2: with `maxRetries = 3` and an operation failing on every attempt,
`executeWithRetry` invokes the operation exactly 3 times, waits
`2^0 * 1000` after the first failure and `2^1 * 1000` after the second,
performs no wait after the third failing attempt, and fails with the error
of the last attempt. -/
theorem retry_three_attempts {E A : Type} (op : Nat → Except E A) (err : Nat → E)
    (h : ∀ i, i < 3 → op i = .error (err i)) :
    executeWithRetry op 3
      = (.error (some (err 2)), 3, [2 ^ 0 * retryBase, 2 ^ 1 * retryBase]) := by
  have h0 := h 0 (by omega)
  have h1 := h 1 (by omega)
  have h2 := h 2 (by omega)
  simp [executeWithRetry, executeWithRetryGo, h0, h1, h2]

/-- Witness for C2 at the operation that fails attempt `i` with error `i`. -/
theorem retry_three_attempts_witness :
    executeWithRetry (fun i => (.error i : Except Nat Unit)) 3
      = (.error (some 2), 3, [2 ^ 0 * retryBase, 2 ^ 1 * retryBase]) :=
  retry_three_attempts (fun i => .error i) (fun i => i) (fun _ _ => rfl)

/-! ### Lemmas about the rate limiter -/

theorem rlCleanup_of_window (windowMs now : Int) (s : List Int)
    (h : ∀ x ∈ s, now - x < windowMs) : rlCleanup windowMs now s = s :=
  List.filter_eq_self.mpr (fun x hx => by simpa using h x hx)

theorem rlRun_admits_all (cap : Nat) (W lo : Int) :
    ∀ (ts s : List Int), (∀ x ∈ s, lo ≤ x ∧ x < lo + W) →
      (∀ t ∈ ts, lo ≤ t ∧ t < lo + W) →
      s.length + ts.length ≤ cap → rlRun cap W s ts = s ++ ts := by
  intro ts
  induction ts with
  | nil => intro s _ _ _; simp [rlRun]
  | cons t ts ih =>
    intro s hs hts hlen
    have hclean : rlCleanup W t s = s :=
      rlCleanup_of_window _ _ _ (fun x hx => by
        have h1 := (hs x hx).1
        have h2 := (hts t (List.mem_cons_self t ts)).2
        omega)
    have hlt : s.length < cap := by
      simp only [List.length_cons] at hlen
      omega
    have hstep : (tryAcquire cap W t s).2 = s ++ [t] := by
      simp [tryAcquire, canMakeRequest, recordRequest, hclean, hlt]
    rw [rlRun, hstep]
    have hrest := ih (s ++ [t])
      (fun x hx => by
        rcases List.mem_append.mp hx with hx | hx
        · exact hs x hx
        · rcases List.mem_singleton.mp hx with rfl
          exact hts x (List.mem_cons_self x ts))
      (fun u hu => hts u (List.mem_cons_of_mem t hu))
      (by simp only [List.length_append, List.length_cons,
            List.length_nil] at hlen ⊢; omega)
    rw [hrest]
    simp

theorem tryAcquire_len_le (cap : Nat) (W now : Int) (s : List Int)
    (h : s.length ≤ cap) : ((tryAcquire cap W now s).2).length ≤ cap := by
  have hle : (rlCleanup W now s).length ≤ s.length := List.length_filter_le _ _
  have hle2 : (rlCleanup W now (rlCleanup W now s)).length
      ≤ (rlCleanup W now s).length := List.length_filter_le _ _
  simp only [tryAcquire, canMakeRequest, recordRequest]
  split
  · rename_i hd
    simp only [decide_eq_true_eq] at hd
    simp only [List.length_append, List.length_singleton]
    omega
  · simpa using le_trans hle h

theorem rlRun_len_le (cap : Nat) (W : Int) :
    ∀ (ts s : List Int), s.length ≤ cap → (rlRun cap W s ts).length ≤ cap := by
  intro ts
  induction ts with
  | nil => intro s h; simpa [rlRun]
  | cons t ts ih => intro s h; rw [rlRun]; exact ih _ (tryAcquire_len_le _ _ _ _ h)

/-- C5: for a limiter with capacity `cap` and window `W`, once `cap`
admissions have been recorded within the current window, the next
`tryAcquire` (the `canMakeRequest`-then-`recordRequest` discipline of
`executeWithFallback`) made within the same window returns false; and for
every call trace the recorded admission count inside any window never
exceeds `cap`. -/
theorem rate_limiter_spec (cap : Nat) (W lo now : Int) (times : List Int)
    (hin : ∀ t ∈ times, lo ≤ t ∧ t < lo + W)
    (hnow : lo ≤ now ∧ now < lo + W)
    (hlen : times.length = cap) :
    (tryAcquire cap W now (rlRun cap W [] times)).1 = false
    ∧ ∀ (ts : List Int) (t' : Int),
        ((rlRun cap W [] ts).filter (fun x => decide (t' - x < W))).length ≤ cap := by
  constructor
  · have hrun : rlRun cap W [] times = times := by
      have h := rlRun_admits_all cap W lo times [] (by simp) hin (by simp [hlen])
      simpa using h
    have hclean : rlCleanup W now times = times :=
      rlCleanup_of_window _ _ _ (fun x hx => by
        have h1 := (hin x hx).1
        omega)
    rw [hrun]
    simp [tryAcquire, canMakeRequest, hclean, hlen]
  · intro ts t'
    have h1 : (rlRun cap W [] ts).length ≤ cap := rlRun_len_le cap W ts [] (by simp)
    exact le_trans (List.length_filter_le _ _) h1

/-- Witness for C5: capacity 2, window 10; after admissions at times 0 and
1, the third acquire at time 2 is denied, and a longer trace keeps its
in-window count at most 2. -/
theorem rate_limiter_spec_witness :
    (tryAcquire 2 10 2 (rlRun 2 10 [] [0, 1])).1 = false
    ∧ ((rlRun 2 10 [] [0, 1, 2, 3]).filter (fun x => decide (4 - x < 10))).length ≤ 2 :=
  ⟨(rate_limiter_spec 2 10 0 2 [0, 1] (by decide) (by decide) rfl).1,
   (rate_limiter_spec 2 10 0 2 [0, 1] (by decide) (by decide) rfl).2 [0, 1, 2, 3] 4⟩

/-! ### Lemmas about the keyed cache -/

theorem lookup_mapSet_self {β : Type} (c : List (String × β)) (k : String) (v : β) :
    lookupKey (mapSet c k v) k = some v := by
  induction c with
  | nil => simp [mapSet, lookupKey]
  | cons p rest ih =>
    obtain ⟨k', v'⟩ := p
    simp only [mapSet]
    split
    · simp [lookupKey]
    · rename_i hne
      simp only [lookupKey, hne, if_false]
      exact ih

theorem mapSet_of_lookup_none {β : Type} {c : List (String × β)} {k : String}
    (v : β) (h : lookupKey c k = none) : mapSet c k v = c ++ [(k, v)] := by
  induction c with
  | nil => simp [mapSet]
  | cons p rest ih =>
    obtain ⟨k', v'⟩ := p
    simp only [lookupKey] at h
    simp only [mapSet]
    split
    · rename_i he; rw [he] at h; simp at h
    · rename_i hne
      rw [if_neg (by simpa using hne)] at h
      simp [ih h]

theorem mapSet_length_of_lookup_some {β : Type} {c : List (String × β)} {k : String}
    {w : β} (v : β) (h : lookupKey c k = some w) :
    (mapSet c k v).length = c.length := by
  induction c with
  | nil => simp [lookupKey] at h
  | cons p rest ih =>
    obtain ⟨k', v'⟩ := p
    simp only [lookupKey] at h
    simp only [mapSet]
    split
    · simp
    · rename_i hne
      rw [if_neg (by simpa using hne)] at h
      simp [ih h]

theorem lookup_append_of_none {β : Type} {l1 : List (String × β)}
    (l2 : List (String × β)) {k : String} (h : lookupKey l1 k = none) :
    lookupKey (l1 ++ l2) k = lookupKey l2 k := by
  induction l1 with
  | nil => simp
  | cons p rest ih =>
    obtain ⟨k', v'⟩ := p
    simp only [lookupKey] at h
    simp only [List.cons_append, lookupKey]
    split
    · rename_i he; rw [if_pos he] at h; simp at h
    · rename_i hne
      rw [if_neg hne] at h
      exact ih h

theorem lookup_mapDelete_of_ne {β : Type} {k0 k : String} (h : (k0 == k) = false) :
    ∀ c : List (String × β), lookupKey (mapDelete k0 c) k = lookupKey c k := by
  intro c
  induction c with
  | nil => simp [mapDelete]
  | cons p rest ih =>
    obtain ⟨k', v'⟩ := p
    simp only [mapDelete]
    split
    · rename_i he
      have : (k' == k) = false := by
        have hk : k' = k0 := by simpa using he
        simpa [hk] using h
      simp [lookupKey, this]
    · simp only [lookupKey, ih]

theorem lookup_none_of_keys_not_mem {β : Type} {c : List (String × β)} {k : String}
    (h : k ∉ c.map Prod.fst) : lookupKey c k = none := by
  induction c with
  | nil => simp [lookupKey]
  | cons p rest ih =>
    obtain ⟨k', v'⟩ := p
    simp only [List.map_cons, List.mem_cons] at h
    push_neg at h
    have : (k' == k) = false := by
      rw [beq_eq_false_iff_ne]
      intro he
      exact h.1 he.symm
    simp only [lookupKey, this, if_false]
    exact ih h.2

theorem keys_mapSet_of_lookup_some {β : Type} {c : List (String × β)} {k : String}
    {w : β} (v : β) (h : lookupKey c k = some w) :
    (mapSet c k v).map Prod.fst = c.map Prod.fst := by
  induction c with
  | nil => simp [lookupKey] at h
  | cons p rest ih =>
    obtain ⟨k', v'⟩ := p
    simp only [lookupKey] at h
    simp only [mapSet]
    split
    · rename_i he
      have hkk : k' = k := by simpa using he
      subst hkk
      simp
    · rename_i hne
      rw [if_neg (by simpa using hne)] at h
      simp [ih h]

theorem keys_not_mem_of_lookup_none {β : Type} {c : List (String × β)} {k : String}
    (h : lookupKey c k = none) : k ∉ c.map Prod.fst := by
  induction c with
  | nil => simp
  | cons p rest ih =>
    obtain ⟨k', v'⟩ := p
    simp only [lookupKey] at h
    simp only [List.map_cons, List.mem_cons]
    push_neg
    split at h
    · simp at h
    · rename_i hne
      exact ⟨fun he => by simp [he] at hne, ih h⟩

theorem lookup_mapDelete_self {β : Type} {c : List (String × β)} {k : String}
    (h : (c.map Prod.fst).Nodup) : lookupKey (mapDelete k c) k = none := by
  induction c with
  | nil => simp [mapDelete, lookupKey]
  | cons p rest ih =>
    obtain ⟨k', v'⟩ := p
    simp only [List.map_cons, List.nodup_cons] at h
    simp only [mapDelete]
    split
    · rename_i he
      have hk : k' = k := by simpa using he
      exact lookup_none_of_keys_not_mem (hk ▸ h.1)
    · rename_i hne
      simp only [lookupKey, hne, if_false]
      exact ih h.2

theorem keys_nodup_mapSet {α : Type} (now : Int)
    (cache : List (String × CacheEntry α)) (k : String) (v : α)
    (h : (cache.map Prod.fst).Nodup) :
    ((mapSet cache k (⟨v, now⟩ : CacheEntry α)).map Prod.fst).Nodup := by
  cases hl : lookupKey cache k with
  | some w => rw [keys_mapSet_of_lookup_some _ hl]; exact h
  | none =>
    rw [mapSet_of_lookup_none _ hl]
    have hk : k ∉ cache.map Prod.fst := keys_not_mem_of_lookup_none hl
    simp only [List.map_append, List.map_cons, List.map_nil]
    rw [List.nodup_append]
    refine ⟨h, List.nodup_singleton k, fun a ha hmem => ?_⟩
    rw [List.mem_singleton] at hmem
    exact hk (hmem ▸ ha)

theorem keys_nodup_evictOverCap {α : Type} (c : List (String × CacheEntry α))
    (h : (c.map Prod.fst).Nodup) : ((evictOverCap c).map Prod.fst).Nodup := by
  cases c with
  | nil => simp [evictOverCap]
  | cons p rest =>
    obtain ⟨k0, e0⟩ := p
    simp only [evictOverCap]
    split
    · show ((mapDelete k0 ((k0, e0) :: rest)).map Prod.fst).Nodup
      simp only [mapDelete, beq_self_eq_true, if_true]
      simp only [List.map_cons, List.nodup_cons] at h
      exact h.2
    · exact h

theorem keys_nodup_setCache {α : Type} (now : Int)
    (cache : List (String × CacheEntry α)) (k : String) (v : α)
    (h : (cache.map Prod.fst).Nodup) :
    ((setCache now cache k v).map Prod.fst).Nodup :=
  keys_nodup_evictOverCap _ (keys_nodup_mapSet now cache k v h)

theorem lookup_setCache_self {α : Type} (now : Int)
    (cache : List (String × CacheEntry α)) (k : String) (v : α)
    (hlen : cache.length ≤ 100) :
    lookupKey (setCache now cache k v) k = some ⟨v, now⟩ := by
  unfold setCache evictOverCap
  cases hl : lookupKey cache k with
  | some w =>
    have hlength : (mapSet cache k (⟨v, now⟩ : CacheEntry α)).length = cache.length :=
      mapSet_length_of_lookup_some _ hl
    rw [if_neg (by omega)]
    exact lookup_mapSet_self _ _ _
  | none =>
    have hms : mapSet cache k (⟨v, now⟩ : CacheEntry α) = cache ++ [(k, ⟨v, now⟩)] :=
      mapSet_of_lookup_none _ hl
    by_cases h100 : 100 < (mapSet cache k (⟨v, now⟩ : CacheEntry α)).length
    · rw [if_pos h100]
      cases cache with
      | nil =>
        rw [hms] at h100
        simp at h100
      | cons c0 ctail =>
        obtain ⟨k0, e0⟩ := c0
        rw [hms]
        simp only [List.cons_append]
        show lookupKey (mapDelete k0 ((k0, e0) :: (ctail ++ [(k, ⟨v, now⟩)]))) k
          = some ⟨v, now⟩
        simp only [mapDelete, beq_self_eq_true, if_true]
        have hctail : lookupKey ctail k = none := by
          simp only [lookupKey] at hl
          split at hl
          · simp at hl
          · exact hl
        rw [lookup_append_of_none _ hctail]
        simp [lookupKey]
    · rw [if_neg h100]
      exact lookup_mapSet_self _ _ _

/-- C6: storing under key `k` at time `t0` into a cache holding at most 100
uniquely-keyed entries makes an immediate `getFromCache` return the stored
value; and once the configured expiry has elapsed, `getFromCache` is a miss
and that access removes the expired entry from the cache. -/
theorem cache_roundtrip_spec {α : Type} (cache : List (String × CacheEntry α))
    (k : String) (v : α) (t0 t1 expiry : Int)
    (hexp : 0 < expiry) (hlen : cache.length ≤ 100)
    (hkeys : (cache.map Prod.fst).Nodup) :
    (getFromCache expiry t0 (setCache t0 cache k v) k).1 = some v
    ∧ (expiry ≤ t1 - t0 →
        getFromCache expiry t1 (setCache t0 cache k v) k
          = (none, mapDelete k (setCache t0 cache k v))
        ∧ lookupKey (mapDelete k (setCache t0 cache k v)) k = none) := by
  have hlook := lookup_setCache_self t0 cache k v hlen
  constructor
  · simp [getFromCache, hlook, sub_self, hexp]
  · intro ht
    have hnotlt : ¬ (t1 - t0 < expiry) := by omega
    refine ⟨?_, lookup_mapDelete_self (keys_nodup_setCache t0 cache k v hkeys)⟩
    simp [getFromCache, hlook, hnotlt]

/-- Witness for C6: empty cache, value 7 stored at time 0 with expiry 3,
read back at times 0 and 5. -/
theorem cache_roundtrip_spec_witness :
    (getFromCache 3 0 (setCache 0 ([] : List (String × CacheEntry Nat)) "k" 7) "k").1
      = some 7
    ∧ (getFromCache 3 5 (setCache 0 ([] : List (String × CacheEntry Nat)) "k" 7) "k"
        = (none, mapDelete "k" (setCache 0 ([] : List (String × CacheEntry Nat)) "k" 7))
      ∧ lookupKey (mapDelete "k"
          (setCache 0 ([] : List (String × CacheEntry Nat)) "k" 7)) "k" = none) :=
  ⟨(cache_roundtrip_spec [] "k" 7 0 5 3 (by decide) (by decide) (by decide)).1,
   (cache_roundtrip_spec [] "k" 7 0 5 3 (by decide) (by decide) (by decide)).2 (by decide)⟩

/-! ### Lemmas about the workflow executor -/

/-- C3: `evaluateConditions` is the logical AND of `evaluateCondition` over
the declared list; when a step declares a condition list containing a
condition that evaluates false, the executor records a skipped entry,
advances to the remaining steps with the execution context unchanged, and
never dispatches the step to `executeStep` (the invocation trace is exactly
that of the remaining steps); a condition whose sentinel operand references
an undefined context path can evaluate false this way. -/
theorem condition_skip_spec (rs : StepOracle) (rt : RegexOracle) (d : Nat)
    (step : WStep) (rest : List WStep) (ctx : List (String × JValue)) (k : Nat)
    (cs : List Condition) (c : Condition)
    (hc : step.conditions = some cs) (hmem : c ∈ cs)
    (hfalse : evaluateCondition rt c (.jobj ctx) = false) :
    (∀ cs' ctx', evaluateConditions rt cs' ctx' = true
        ↔ ∀ c' ∈ cs', evaluateCondition rt c' ctx' = true)
    ∧ execSteps rs rt d (step :: rest) ctx k
        = { execSteps rs rt d rest ctx k with
              entries := .skipped step.id :: (execSteps rs rt d rest ctx k).entries }
    ∧ (execSteps rs rt d (step :: rest) ctx k).invoked
        = (execSteps rs rt d rest ctx k).invoked
    ∧ evaluateCondition rt ⟨.jstr "$missing", "==", .jnum 1⟩ (.jobj []) = false := by
  have hall : evaluateConditions rt cs (.jobj ctx) = false := by
    unfold evaluateConditions
    rw [List.all_eq_false]
    exact ⟨c, hmem, by simp [hfalse]⟩
  have hgate : stepGate rt step ctx = false := by
    simp [stepGate, hc, hall]
  have hexec : execSteps rs rt d (step :: rest) ctx k
      = { execSteps rs rt d rest ctx k with
            entries := .skipped step.id :: (execSteps rs rt d rest ctx k).entries } := by
    rw [execSteps, hgate]
  refine ⟨fun cs' ctx' => ?_, hexec, ?_, rfl⟩
  · unfold evaluateConditions
    exact List.all_eq_true
  · rw [hexec]

/-- Witness for C3 at a one-condition step whose condition is false. -/
theorem condition_skip_spec_witness :
    execSteps (fun _ _ _ => .ok .jnull) (fun _ _ => .ok false) 0
        [⟨"s1", some [⟨.jbool true, "==", .jbool false⟩], none, none⟩] [] 0
      = { execSteps (fun _ _ _ => .ok .jnull) (fun _ _ => .ok false) 0 [] [] 0 with
            entries := .skipped "s1" ::
              (execSteps (fun _ _ _ => .ok .jnull) (fun _ _ => .ok false) 0 [] [] 0).entries } :=
  (condition_skip_spec (fun _ _ _ => .ok .jnull) (fun _ _ => .ok false) 0
    ⟨"s1", some [⟨.jbool true, "==", .jbool false⟩], none, none⟩ [] [] 0
    [⟨.jbool true, "==", .jbool false⟩] ⟨.jbool true, "==", .jbool false⟩
    rfl (List.mem_singleton.mpr rfl) rfl).2.1

/-- C7 (amended): with a declared non-zero `stepDelay`, the executor waits
that duration exactly once after every step that is neither skipped nor
aborting — i.e. the inter-step waits are one `stepDelay` per recorded
non-skipped entry (success, continued error, or successful retry); a
skipped step `continue`s past the delay, and an aborting step throws before
reaching it. -/
theorem step_delay_spec (rs : StepOracle) (rt : RegexOracle) (d : Nat) (hd : d ≠ 0) :
    ∀ (steps : List WStep) (ctx : List (String × JValue)) (k : Nat),
      (execSteps rs rt d steps ctx k).stepWaits
        = List.replicate
            ((execSteps rs rt d steps ctx k).entries.countP (fun en => !en.isSkipped)) d := by
  intro steps
  induction steps with
  | nil => intro ctx k; simp [execSteps]
  | cons step rest ih =>
    intro ctx k
    cases hgate : stepGate rt step ctx with
    | false =>
      simp only [execSteps, hgate]
      simp [List.countP_cons, StepEntry.isSkipped, ih]
    | true =>
      cases hr : rs k step ctx with
      | ok v =>
        simp only [execSteps, hgate, hr]
        simp [List.countP_cons, StepEntry.isSkipped, waitAfter, hd, ih,
          List.replicate_succ]
      | error e =>
        simp only [execSteps, hgate, hr]
        split
        · simp
        · split
          · simp [List.countP_cons, StepEntry.isSkipped, waitAfter, hd, ih,
              List.replicate_succ]
          · simp
        · simp [List.countP_cons, StepEntry.isSkipped, waitAfter, hd, ih,
            List.replicate_succ]

/-- Counterexample to C7 as stated: a workflow declaring `stepDelay = 5`
whose single step is skipped performs no inter-step wait at all — the skip
path `continue`s before the delay, so the wait does not happen "regardless
of outcome". -/
theorem step_delay_counterexample :
    (execSteps (fun _ _ _ => .ok .jnull) (fun _ _ => .ok false) 5
        [⟨"s1", some [⟨.jbool true, "==", .jbool false⟩], none, none⟩] [] 0).entries
      = [.skipped "s1"]
    ∧ (execSteps (fun _ _ _ => .ok .jnull) (fun _ _ => .ok false) 5
        [⟨"s1", some [⟨.jbool true, "==", .jbool false⟩], none, none⟩] [] 0).stepWaits
      = [] := by
  exact ⟨rfl, rfl⟩

/-- Witness for C7 (amended) at a single successful step with delay 5. -/
theorem step_delay_spec_witness :
    (execSteps (fun _ _ _ => .ok .jnull) (fun _ _ => .ok false) 5
        [⟨"s2", none, none, none⟩] [] 0).stepWaits
      = List.replicate
          ((execSteps (fun _ _ _ => .ok .jnull) (fun _ _ => .ok false) 5
            [⟨"s2", none, none, none⟩] [] 0).entries.countP (fun en => !en.isSkipped)) 5 :=
  step_delay_spec (fun _ _ _ => .ok .jnull) (fun _ _ => .ok false) 5 (by decide)
    [⟨"s2", none, none, none⟩] [] 0

/-- Whether an `errorHandling` value falls through to the default
record-and-continue branch (neither `"fail"` nor `"retry"`). -/
def defaultMode : Option String → Bool
  | none => true
  | some s => !(s == "fail") && !(s == "retry")

/-- C4 (amended): when a non-skipped step's `executeStep` throws, the
executor applies the step's error mode: `"fail"` aborts immediately with
that error, leaving the remaining steps unexecuted; a mode that is neither
`"fail"` nor `"retry"` records the error (entry list and
`execution.errors`) and continues with the remaining steps; `"retry"`
re-invokes the step through the step-scoped 3-attempt `retryStep` — if some
retry attempt succeeds the executor records a retried entry and continues
without aborting, but if every retry attempt fails the last retry error
propagates and aborts the execution as well. -/
theorem error_mode_spec (rs : StepOracle) (rt : RegexOracle) (d : Nat)
    (step : WStep) (rest : List WStep) (ctx : List (String × JValue)) (k : Nat)
    (e : String) (hgate : stepGate rt step ctx = true)
    (hr : rs k step ctx = .error e) :
    (step.errorHandling = some "fail" →
      execSteps rs rt d (step :: rest) ctx k
        = ⟨[], [], [], [step.id], some e, ctx, k + 1⟩)
    ∧ (defaultMode step.errorHandling = true →
      execSteps rs rt d (step :: rest) ctx k
        = { execSteps rs rt d rest (pushField ctx "errors" (errObj step.id e)) (k + 1) with
              entries := .errored step.id e ::
                (execSteps rs rt d rest (pushField ctx "errors" (errObj step.id e)) (k + 1)).entries,
              stepWaits := waitAfter d ++
                (execSteps rs rt d rest (pushField ctx "errors" (errObj step.id e)) (k + 1)).stepWaits,
              invoked := step.id ::
                (execSteps rs rt d rest (pushField ctx "errors" (errObj step.id e)) (k + 1)).invoked })
    ∧ (∀ v, step.errorHandling = some "retry" →
        (retryStep rs step ctx 3 (k + 1)).res = .ok v →
      execSteps rs rt d (step :: rest) ctx k
        = { execSteps rs rt d rest ctx (k + 1 + (retryStep rs step ctx 3 (k + 1)).attempts) with
              entries := .retried step.id v ::
                (execSteps rs rt d rest ctx (k + 1 + (retryStep rs step ctx 3 (k + 1)).attempts)).entries,
              stepWaits := waitAfter d ++
                (execSteps rs rt d rest ctx (k + 1 + (retryStep rs step ctx 3 (k + 1)).attempts)).stepWaits,
              retryWaits := (retryStep rs step ctx 3 (k + 1)).waits ++
                (execSteps rs rt d rest ctx (k + 1 + (retryStep rs step ctx 3 (k + 1)).attempts)).retryWaits,
              invoked := step.id :: List.replicate (retryStep rs step ctx 3 (k + 1)).attempts step.id ++
                (execSteps rs rt d rest ctx (k + 1 + (retryStep rs step ctx 3 (k + 1)).attempts)).invoked })
    ∧ (∀ e2, step.errorHandling = some "retry" →
        (retryStep rs step ctx 3 (k + 1)).res = .error e2 →
      execSteps rs rt d (step :: rest) ctx k
        = ⟨[], [], (retryStep rs step ctx 3 (k + 1)).waits,
            step.id :: List.replicate (retryStep rs step ctx 3 (k + 1)).attempts step.id,
            some e2, ctx, k + 1 + (retryStep rs step ctx 3 (k + 1)).attempts⟩) := by
  refine ⟨fun heh => ?_, fun hdm => ?_, fun v heh hretry => ?_, fun e2 heh hretry => ?_⟩
  · simp only [execSteps, hgate, hr, heh]
  · simp only [execSteps, hgate, hr]
    split
    · rename_i heq
      rw [heq] at hdm
      simp [defaultMode] at hdm
    · rename_i heq
      rw [heq] at hdm
      simp [defaultMode] at hdm
    · rfl
  · simp only [execSteps, hgate, hr, heh, hretry]
  · simp only [execSteps, hgate, hr, heh, hretry]

/-- Counterexample to C4 as stated: a step in `"retry"` mode whose action
fails on the initial attempt and on all 3 retries aborts the execution (the
last retry error propagates), so "fail" is not the only mode that aborts —
the following step is never invoked. -/
theorem error_mode_counterexample :
    (execSteps (fun _ _ _ => .error "boom") (fun _ _ => .ok false) 0
        [⟨"s1", none, some "retry", none⟩, ⟨"s2", none, none, none⟩] [] 0).aborted
      = some "boom"
    ∧ (execSteps (fun _ _ _ => .error "boom") (fun _ _ => .ok false) 0
        [⟨"s1", none, some "retry", none⟩, ⟨"s2", none, none, none⟩] [] 0).invoked
      = ["s1", "s1", "s1", "s1"] :=
  ⟨rfl, rfl⟩

/-- Witness for C4 (amended) at a failing step in `"fail"` mode followed by
a step that consequently never runs. -/
theorem error_mode_spec_witness :
    execSteps (fun _ _ _ => .error "boom") (fun _ _ => .ok false) 0
        [⟨"s1", none, some "fail", none⟩, ⟨"s2", none, none, none⟩] [] 0
      = ⟨[], [], [], ["s1"], some "boom", [], 1⟩ :=
  (error_mode_spec (fun _ _ _ => .error "boom") (fun _ _ => .ok false) 0
    ⟨"s1", none, some "fail", none⟩ [⟨"s2", none, none, none⟩] [] 0 "boom"
    rfl rfl).1 rfl

/-- C10 (amended): a condition whose operator is none of the eight
recognized ones evaluates true through the switch's default branch —
provided both operand resolutions succeed (no dotted-path traversal through
`null`, which throws and makes the catch return false instead) — and a
step guarded only by such a condition is dispatched to `executeStep` rather
than skipped. -/
theorem unknown_operator_spec (rt : RegexOracle) (c : Condition)
    (hop : c.operator ∉
      (["==", "!=", ">", "<", ">=", "<=", "contains", "matches"] : List String)) :
    (∀ ctxV lv rv, resolveValue c.left ctxV = .ok lv →
      resolveValue c.right ctxV = .ok rv →
      evaluateCondition rt c ctxV = true)
    ∧ (∀ (rs : StepOracle) (d : Nat) (step : WStep) (rest : List WStep)
        (ctx : List (String × JValue)) (k : Nat) (lv rv v : JValue),
        step.conditions = some [c] → step.storeAs = none →
        resolveValue c.left (.jobj ctx) = .ok lv →
        resolveValue c.right (.jobj ctx) = .ok rv →
        rs k step ctx = .ok v →
        execSteps rs rt d (step :: rest) ctx k
          = { execSteps rs rt d rest (pushField ctx "results" v) (k + 1) with
                entries := .success step.id v ::
                  (execSteps rs rt d rest (pushField ctx "results" v) (k + 1)).entries,
                stepWaits := waitAfter d ++
                  (execSteps rs rt d rest (pushField ctx "results" v) (k + 1)).stepWaits,
                invoked := step.id ::
                  (execSteps rs rt d rest (pushField ctx "results" v) (k + 1)).invoked }) := by
  have heval : ∀ ctxV lv rv, resolveValue c.left ctxV = .ok lv →
      resolveValue c.right ctxV = .ok rv → evaluateCondition rt c ctxV = true := by
    intro ctxV lv rv hl hr
    have hcore : evaluateConditionCore rt c ctxV = .ok true := by
      unfold evaluateConditionCore
      rw [hl, hr]
      split <;> simp_all
    unfold evaluateCondition
    rw [hcore]
  refine ⟨heval, ?_⟩
  intro rs d step rest ctx k lv rv v hc hstore hl hr hok
  have hgate : stepGate rt step ctx = true := by
    simp [stepGate, hc, evaluateConditions, heval (.jobj ctx) lv rv hl hr]
  simp only [execSteps, hgate, hok, hstore]

/-- Counterexample to C10 as stated: an unrecognized operator does not
always yield true — with left operand `$a.b` and context `{a: null}`,
`resolveValue` throws a `TypeError` (`null['b']`) before the switch, the
catch returns false, and a step guarded only by this condition is skipped,
never dispatched. -/
theorem unknown_operator_counterexample :
    evaluateCondition (fun _ _ => .ok false)
        ⟨.jstr "$a.b", "between", .jnum 1⟩ (.jobj [("a", .jnull)]) = false
    ∧ (execSteps (fun _ _ _ => .ok .jnull) (fun _ _ => .ok false) 0
        [⟨"s1", some [⟨.jstr "$a.b", "between", .jnum 1⟩], none, none⟩]
        [("a", .jnull)] 0).entries = [.skipped "s1"]
    ∧ (execSteps (fun _ _ _ => .ok .jnull) (fun _ _ => .ok false) 0
        [⟨"s1", some [⟨.jstr "$a.b", "between", .jnum 1⟩], none, none⟩]
        [("a", .jnull)] 0).invoked = [] :=
  ⟨rfl, rfl, rfl⟩

/-- Witness for C10 (amended) at literal operands and operator `between`. -/
theorem unknown_operator_spec_witness :
    evaluateCondition (fun _ _ => .ok false)
      ⟨.jnum 1, "between", .jnum 2⟩ (.jobj []) = true :=
  (unknown_operator_spec (fun _ _ => .ok false) ⟨.jnum 1, "between", .jnum 2⟩
    (by decide)).1 (.jobj []) (.jnum 1) (.jnum 2) rfl rfl

/-! ### Lemmas about comparisons with `undefined` -/

theorem jsLtU_undef_left (v : JValue) : jsLtU .undefined v = none := by
  cases v with
  | undefined => simp [jsLtU, jsToPrim, jsToNumber]
  | jnull => simp [jsLtU, jsToPrim, jsToNumber]
  | jbool b => simp [jsLtU, jsToPrim, jsToNumber]
  | jnum n => simp [jsLtU, jsToPrim, jsToNumber]
  | jstr s => cases hns : jsStrToNumber s <;> simp [jsLtU, jsToPrim, jsToNumber, hns]
  | jobj o => simp [jsLtU, jsToPrim, jsToNumber]
  | jarr l =>
    cases hns : jsStrToNumber (joinElems l) <;>
      simp [jsLtU, jsToPrim, jsToNumber, hns]

theorem jsLtU_undef_right (v : JValue) : jsLtU v .undefined = none := by
  cases v with
  | undefined => simp [jsLtU, jsToPrim, jsToNumber]
  | jnull => simp [jsLtU, jsToPrim, jsToNumber]
  | jbool b => simp [jsLtU, jsToPrim, jsToNumber]
  | jnum n => simp [jsLtU, jsToPrim, jsToNumber]
  | jstr s => cases hns : jsStrToNumber s <;> simp [jsLtU, jsToPrim, jsToNumber, hns]
  | jobj o => simp [jsLtU, jsToPrim, jsToNumber]
  | jarr l =>
    cases hns : jsStrToNumber (joinElems l) <;>
      simp [jsLtU, jsToPrim, jsToNumber, hns]

/-- C8 (amended): `evaluateCondition` always returns the boolean computed by
its `try` body and fails closed — any internal error yields false, never
propagating; a string operand whose first character is the `$` sentinel is
resolved by dotted-path lookup in the context while any other operand
passes through unchanged; a path whose first segment is absent resolves to
`undefined`; and an `undefined` operand yields false under all four
ordering operators and is loosely equal only to `undefined` and `null`
(so `==` against any number, string, boolean, object or array is false,
while `!=` against those is true). -/
theorem evaluator_fails_closed_spec (rt : RegexOracle) :
    (∀ (c : Condition) (ctxV : JValue) (u : Unit),
      evaluateConditionCore rt c ctxV = .error u → evaluateCondition rt c ctxV = false)
    ∧ (∀ (c : Condition) (ctxV : JValue) (b : Bool),
      evaluateConditionCore rt c ctxV = .ok b → evaluateCondition rt c ctxV = b)
    ∧ (∀ (ctxV : JValue) (cs : List Char),
      resolveValue (.jstr (String.mk ('$' :: cs))) ctxV = pathWalk ctxV (splitDot cs))
    ∧ (∀ (ctxV : JValue) (s : String) (c : Char) (cs : List Char),
      s.toList = c :: cs → c ≠ '$' → resolveValue (.jstr s) ctxV = .ok (.jstr s))
    ∧ (∀ (ctxV : JValue) (n : Int), resolveValue (.jnum n) ctxV = .ok (.jnum n))
    ∧ (∀ (fields : List (String × JValue)) (ks : List String) (k : String),
      getField fields k = .undefined → pathWalk (.jobj fields) (k :: ks) = .ok .undefined)
    ∧ (∀ v : JValue, jsLt .undefined v = false ∧ jsLt v .undefined = false
        ∧ jsGt .undefined v = false ∧ jsGt v .undefined = false
        ∧ jsLe .undefined v = false ∧ jsLe v .undefined = false
        ∧ jsGe .undefined v = false ∧ jsGe v .undefined = false)
    ∧ (∀ v : JValue, jsEq .undefined v = true ↔ (v = .undefined ∨ v = .jnull)) := by
  refine ⟨?_, ?_, ?_, ?_, ?_, ?_, ?_, ?_⟩
  · intro c ctxV u h
    unfold evaluateCondition
    rw [h]
  · intro c ctxV b h
    unfold evaluateCondition
    rw [h]
  · intro ctxV cs
    simp [resolveValue, String.toList]
  · intro ctxV s c cs hs hc
    have hs' : s.data = c :: cs := hs
    simp [resolveValue, hs', hc]
  · intro ctxV n
    rfl
  · intro fields ks k h
    simp [pathWalk, jsIndex, h]
  · intro v
    refine ⟨?_, ?_, ?_, ?_, ?_, ?_, ?_, ?_⟩ <;>
      simp [jsLt, jsGt, jsLe, jsGe, jsLtU_undef_left, jsLtU_undef_right]
  · intro v
    cases v <;> simp [jsEq]

/-- Counterexample to C8 as stated: a missing context path resolves to
`undefined`, but it does not compare false against everything — the
condition `$missing != 5` evaluates true. -/
theorem undefined_compare_counterexample :
    evaluateCondition (fun _ _ => .ok false)
      ⟨.jstr "$missing", "!=", .jnum 5⟩ (.jobj []) = true :=
  rfl

/-- Witness for C8 (amended): a thrown `TypeError` (null traversal) yields
false, a plain string literal passes through, and a missing first path
segment resolves to `undefined`. -/
theorem evaluator_fails_closed_spec_witness :
    evaluateCondition (fun _ _ => .ok false)
        ⟨.jstr "$a.b", "==", .jnum 1⟩ (.jobj [("a", .jnull)]) = false
    ∧ resolveValue (.jstr "abc") (.jobj []) = .ok (.jstr "abc")
    ∧ pathWalk (.jobj []) ["missing"] = .ok .undefined :=
  ⟨(evaluator_fails_closed_spec (fun _ _ => .ok false)).1
      ⟨.jstr "$a.b", "==", .jnum 1⟩ (.jobj [("a", .jnull)]) () rfl,
   (evaluator_fails_closed_spec (fun _ _ => .ok false)).2.2.2.1
      (.jobj []) "abc" 'a' ['b', 'c'] rfl (by decide),
   (evaluator_fails_closed_spec (fun _ _ => .ok false)).2.2.2.2.2.1
      [] [] "missing" rfl⟩

/-- C9: when the generation path fails entirely — the pattern matcher throws,
or it produces no high-confidence stored workflow and
`generateFromDescription` throws — `handleGenerateWorkflow` answers with
`createFallbackWorkflow`, a minimal placeholder whose single step has type
`alert` and a message describing the failure, instead of surfacing the raw
error. -/
theorem fallback_workflow_spec (now : Int) (description : String)
    (m : MatchResult) (gen : Except String GenWorkflow)
    (learn : Except String Unit) (e pe : String) :
    (handleGenerateWorkflow now description (.error pe) gen learn
      = createFallbackWorkflow now description)
    ∧ ((m.topWorkflow = none ∨ ¬ ((85 : ℚ) / 100 < m.confidence)) →
      handleGenerateWorkflow now description (.ok m) (.error e) learn
        = createFallbackWorkflow now description)
    ∧ ((createFallbackWorkflow now description).steps.map (fun s => s.type)
        = ["alert"])
    ∧ ((createFallbackWorkflow now description).steps.map
          (fun s => getField s.action "message")
        = [.jstr "Workflow generation failed. Please try again with more details."]) := by
  refine ⟨rfl, fun h => ?_, rfl, rfl⟩
  cases hw : m.topWorkflow with
  | none => simp [handleGenerateWorkflow, hw, generateBranch]
  | some w =>
    rcases h with h | h
    · rw [hw] at h
      exact absurd h (by simp)
    · simp [handleGenerateWorkflow, hw, h, generateBranch]

/-- Witness for C9 at a low-confidence pattern-match result and a failing
generator. -/
theorem fallback_workflow_spec_witness :
    handleGenerateWorkflow 0 "collect emails" (.ok ⟨1 / 2, none⟩)
        (.error "all providers failed") (.ok ())
      = createFallbackWorkflow 0 "collect emails" :=
  (fallback_workflow_spec 0 "collect emails" ⟨1 / 2, none⟩
    (.error "all providers failed") (.ok ()) "all providers failed" "").2.1
    (Or.inl rfl)
